import Mathlib

/-!
# Verification of the mogogo resource engine

Shallow embedding, in Lean 4, of the parts of the mogogo resource engine
(a schema-driven REST framework over a document store) that are analysed
here:

* the resource-name validator (`util.go`, `isQueryName`);
* the condition broadcaster (`mapcond.go`, `mapCond`);
* the iterator / slice machinery (`selectorIter`, `selectorSlice`);
* the field-resource handler verbs (`fqHandler.Put/Post/Delete/Patch`);
* the registration checks (`checkFieldResource`, `ensureIndex`).

Go maps (`bson.M`, `map[string]interface{}`) are embedded as association
lists (`Doc`) with an explicit lookup; `interface{}` values become the
inductive `MVal`; the document store is abstracted as oracles for the
results/errors of each store call, so every handler becomes a pure
function of its inputs and the oracles.  Machine integers stay `Int`/`Nat`
(no analysed property depends on 64-bit wraparound).

The file is organised as: all definitions first, then all theorems.
-/

namespace Mogogo

/-- Model of a Go `interface{}` value as stored in the engine's maps:
strings, ints, bools, object identities, and timestamps. -/
inductive MVal where
  | str (s : String)
  | int (n : Int)
  | bool (b : Bool)
  | oid (n : Nat)
  | time (t : Nat)
  deriving DecidableEq, Repr

/-- A Go `map[string]interface{}` / `bson.M`, as an association list. -/
abbrev Doc := List (String × MVal)

/-- Lookup in a `Doc`; mirrors Go's `v, ok := m[k]` (`none` means absent). -/
def dlookup (k : String) : Doc → Option MVal
  | [] => none
  | (k', v) :: rest => if k' = k then some v else dlookup k rest

/-- Map update; mirrors Go's `m[k] = v` (replace if present, else add). -/
def dinsert (k : String) (v : MVal) : Doc → Doc
  | [] => [(k, v)]
  | (k', v') :: rest => if k' = k then (k, v) :: rest else (k', v') :: dinsert k v rest

/-- The keys of a `Doc`. -/
def dkeys (m : Doc) : List String := m.map Prod.fst

/-! ## Iterator count (`selectorIter.count`, part_004 lines 952-970)

The store's `q.Limit(l).Count()` returns the number of matching records
capped at `l`, i.e. `min matchN l`; the code issues `Limit(limit+1)` when a
positive limit is configured. -/

/-- Embeds `selectorIter.count`: `matchN` is the number of records matching
the iterator's criterion, `limit` the configured limit.  Returns the
reported `(count, more)` pair. -/
def selectorIterCount (matchN limit : Nat) : Nat × Bool :=
  if 0 < limit then
    let c := min matchN (limit + 1)
    if limit < c then (limit, true) else (c, false)
  else (matchN, false)

/-! ## Skip-based `prev` (`selectorIter.sortedPrev`, part_004 lines 1052-1064) -/

/-- Embeds `selectorIter.sortedPrev`: given the requested offset `c` and
page size `n`, returns the `(c, n)` parameters of the produced `prev`
identifier, or `none` when no `prev` link is produced. -/
def sortedPrev (c n : Int) : Option (Int × Int) :=
  let c2 := c - n
  let n2 := if c2 < 0 then n + c2 else n
  if n2 ≤ 0 then none else some (c2, n2)

/-- Embeds the offset/size clamping at the top of `selectorIter.sortedItems`
(part_004 lines 971-985): a negative offset shrinks the page size and is
clamped to zero before the store query is issued. -/
def sortedItemsClamp (c n : Int) : Int × Int :=
  if c < 0 then ((0 : Int), n + c) else (c, n)

/-! ## `selectorSlice.HasItems` (part_004 lines 674-676 and part_005 lines 528-530)

A Go slice field is embedded as `Option (List MVal)`: `none` is the nil
slice, `some l` a non-nil slice with the given elements. -/

/-- part_004's `selectorSlice.HasItems`: `return ss.items != nil`. -/
def selectorSliceHasItems (items : Option (List MVal)) : Bool :=
  items.isSome

/-- part_005's `selectorSlice.HasItems`: `return ss.items == nil`. -/
def selectorSliceHasItemsV5 (items : Option (List MVal)) : Bool :=
  items.isNone

/-- Both snapshots' `selectorSlice.Items`: panics (`"no items"`) when the
items slice is nil, else returns it. -/
def selectorSliceItems (items : Option (List MVal)) : Except String (List MVal) :=
  match items with
  | none => .error "no items"
  | some l => .ok l

/-! ## Resource-name validator (`util.go` lines 16-26)

`isQueryName` matches the compiled pattern `^(-?([a-z0-9]+-)*[a-z0-9]+|)$`
against the whole string.  The anchored fragment of Go regexps used here
(character classes, concatenation, alternation, star, plus, optional) is
embedded as a small regular-expression type with Brzozowski derivatives
for matching. -/

/-- Regular expressions over `Char`, with character classes as predicates. -/
inductive Re where
  | nul : Re
  | eps : Re
  | cls : (Char → Bool) → Re
  | alt : Re → Re → Re
  | cat : Re → Re → Re
  | star : Re → Re

namespace Re

def nullable : Re → Bool
  | nul => false
  | eps => true
  | cls _ => false
  | alt a b => nullable a || nullable b
  | cat a b => nullable a && nullable b
  | star _ => true

def deriv : Re → Char → Re
  | nul, _ => nul
  | eps, _ => nul
  | cls f, c => if f c then eps else nul
  | alt a b, c => alt (deriv a c) (deriv b c)
  | cat a b, c =>
    if nullable a then alt (cat (deriv a c) b) (deriv b c) else cat (deriv a c) b
  | star a, c => cat (deriv a c) (star a)

def matchesL (r : Re) : List Char → Bool
  | [] => nullable r
  | c :: s => matchesL (deriv r c) s

/-- Anchored whole-string match, as Go's `Regexp.Match` behaves on a
`^...$`-anchored pattern. -/
def matchRe (r : Re) (s : String) : Bool := matchesL r s.data

/-- `r?` -/
def opt (r : Re) : Re := alt r eps

/-- `r+` -/
def rplus (r : Re) : Re := cat r (star r)

end Re

/-- The class `[a-z0-9]`. -/
def alnumLower (c : Char) : Bool := ('a' ≤ c && c ≤ 'z') || ('0' ≤ c && c ≤ '9')

/-- The single character `-`. -/
def dashChar (c : Char) : Bool := c = '-'

/-- The grammar the spec states for resource names:
`-?([a-z0-9]+-)*[a-z0-9]+` (anchored). -/
def grammarRe : Re :=
  Re.cat (Re.opt (Re.cls dashChar))
    (Re.cat (Re.star (Re.cat (Re.rplus (Re.cls alnumLower)) (Re.cls dashChar)))
      (Re.rplus (Re.cls alnumLower)))

/-- The pattern the code compiles: `(-?([a-z0-9]+-)*[a-z0-9]+|)` (anchored) —
the spec grammar *or* the empty string. -/
def queryNameRe : Re := Re.alt grammarRe Re.eps

/-- Embeds `isQueryName` (util.go line 24): whole-string match of the
compiled pattern. -/
def isQueryName (s : String) : Bool := Re.matchRe queryNameRe s

/-! ## Condition broadcaster (`mapcond.go` lines 9-136)

`keyset` is `[8]string` (the map's keys sorted ascending, padded with `""`)
and `valarray` is `[8]interface{}` (values positionally matching the
keyset, Go zero value for the padding); both are embedded as lists.
`sort.Strings` is embedded as insertion sort — the same output, the unique
ascending arrangement of the keys. -/

/-- Insert into an ascending list (helper for `sortStrings`). -/
def insSorted (a : String) : List String → List String
  | [] => [a]
  | b :: r => if a ≤ b then a :: b :: r else b :: insSorted a r

/-- `sort.Strings`: ascending sort. -/
def sortStrings : List String → List String
  | [] => []
  | a :: r => insSorted a (sortStrings r)

/-- `mapCond.getKeySet`: the condition map's keys, sorted ascending and
padded with `""` to length 8.  The code panics when the map has more than
8 keys or an empty key; the theorems carry those guards as hypotheses. -/
def getKeySet (m : Doc) : List String :=
  sortStrings (dkeys m) ++ List.replicate (8 - (sortStrings (dkeys m)).length) ""

/-- `mapCond.getValArray`: the map's values at the keyset's positions; the
loop stops at the first `""` key, leaving the zero value (`none`) there
and after. -/
def getValArray (m : Doc) : List String → List (Option MVal)
  | [] => []
  | k :: r =>
    if k = "" then List.replicate (r.length + 1) none
    else dlookup k m :: getValArray m r

/-- `mapCond.matchKeySet`: every key of the keyset (up to the first `""`)
is present in the broadcast map. -/
def matchKeySet (ks : List String) (m : Doc) : Bool :=
  match ks with
  | [] => true
  | k :: r => if k = "" then true else (dlookup k m).isSome && matchKeySet r m

/-- `mapCond.waitOn` files a waiter on `cond` under the bucket
`(getKeySet cond, getValArray cond (getKeySet cond))`; `mapCond.Broadcast m`
signals exactly the buckets whose keyset `ks` satisfies `matchKeySet ks m`
and whose valarray equals `getValArray m ks`.  `condSignalled cond m` is
therefore whether a broadcast of `m` signals a waiter registered on
`cond`. -/
def condSignalled (cond m : Doc) : Bool :=
  matchKeySet (getKeySet cond) m
    && decide (getValArray m (getKeySet cond) = getValArray cond (getKeySet cond))

/-- A registered waiter: its id (key in `idToWaitList`) and condition. -/
structure Waiter where
  id : Nat
  cond : Doc

/-- The waiter ids one `mapCond.Broadcast m` signals. -/
def broadcastSignalled (ws : List Waiter) (m : Doc) : List Nat :=
  (ws.filter (fun w => condSignalled w.cond m)).map Waiter.id

/-! ## Field-resource handler (`fqHandler`, part_004)

Verb bitmask (part_004 lines 381-386): `GET = 1`, `PUT = 2`, `DELETE = 4`,
`POST = 8`, `PATCH = 16`. -/

def mGET : Nat := 1
def mPUT : Nat := 2
def mDELETE : Nat := 4
def mPOST : Nat := 8
def mPATCH : Nat := 16

/-- Object identities (`bson.ObjectId`); the empty id `""` is `none` at
option type. -/
abbrev OId := Nat

/-- Timestamps (`time.Time` in UTC); `bson.Now().UTC()` is an oracle. -/
abbrev Time := Nat

/-- Handler error outcomes.  Returned `*Error` values and panics are kept
apart: `panicISE` is a panicked `InternalServerError`, `panicMsg` a raw
`panic(string)`. -/
inductive HErr where
  | methodNotAllowed
  | conflict
  | internalServerError
  | panicISE
  | panicMsg
  deriving DecidableEq, Repr

/-- The store write a successful `Put`/`Post` performed, with the base
fields as persisted. -/
inductive PutOk where
  | inserted (id : OId) (ct mt : Time)
  | upserted (id : OId) (ct mt : Time)
  deriving DecidableEq, Repr

/-- Embeds `fqHandler.Put` (part_004 lines 2120-2178).  Oracles: `found` is
the `Find(q).One` result (`none` = `mgo.ErrNotFound`; when found it carries
the stored `_id` and `ct`); `newId` is what `bson.NewObjectId()` would
mint; `now` is `bson.Now().UTC()`; `insertErr`/`upsertErr` are the store
error codes of the write (`none` = success).  `bodyId` is the request
body's base identity (`none` = the empty id).  Criterion-construction
errors and non-not-found read errors return/panic before the two branches
and are outside this embedding. -/
def fqPut (allow : Nat) (bodyId : Option OId) (newId : OId) (now : Time)
    (found : Option (OId × Time)) (insertErr upsertErr : Option Nat) :
    Except HErr PutOk :=
  if allow &&& mPUT = 0 then .error .methodNotAllowed
  else
    match found with
    | none =>
      let id := bodyId.getD newId
      match insertErr with
      | some code => if code = 11000 then .error .conflict else .error .panicISE
      | none => .ok (.inserted id now now)
    | some (oldId, oldCt) =>
      match upsertErr with
      | some code =>
        if code = 11000 then .error .conflict else .error .internalServerError
      | none => .ok (.upserted oldId oldCt now)

/-- `fqHandler.setStructFields` (part_004 lines 1962-1991) mirrors the
criterion's bindings into the request body: each bound field is set to its
segment/context value — the same values `fqHandler.query` puts into the
criterion, so the effect on the body's storage form is updating it with
the criterion's entries. -/
def setStructFieldsDoc (body crit : Doc) : Doc :=
  crit.foldl (fun b kv => dinsert kv.1 kv.2 b) body

/-- `rest.structToBson` (part_004 lines 1408-1433) for a loaded record
with a non-empty identity: the base fields under `_id`, `mt`, `ct`,
followed by the declared fields in storage form (lower-cased keys,
references flattened — the per-field codec is not re-modelled). -/
def structToBsonDoc (id : OId) (ct mt : Time) (fields : Doc) : Doc :=
  [("_id", MVal.oid id), ("mt", MVal.time mt), ("ct", MVal.time ct)] ++ fields

/-- What a successful `fqHandler.Post` did: the insert's base fields and
the broadcast it issued (`none` when the shape is not in the pull set). -/
structure PostOk where
  inserted : PutOk
  broadcast : Option Doc
  deriving DecidableEq, Repr

/-- Embeds `fqHandler.Post` (part_004 lines 2207-2239).  `crit` is the
criterion `fqHandler.query` builds (storage-keyed); `bodyFields` the
request body's declared fields in storage form; `insertErr` the insert's
store error code; `pullSet` is `r.pull[fq.Type]`; `typeName` the shape
name.  The broadcast argument is `b` — the inserted record's stored
document — with `b["$type"] = fq.Type` added. -/
def fqPost (allow : Nat) (crit bodyFields : Doc) (newId : OId) (now : Time)
    (insertErr : Option Nat) (pullSet : Bool) (typeName : String) :
    Except HErr PostOk :=
  if allow &&& mPOST = 0 then .error .methodNotAllowed
  else
    let fields := setStructFieldsDoc bodyFields crit
    let b := structToBsonDoc newId now now fields
    match insertErr with
    | some code => if code = 11000 then .error .conflict else .error .panicISE
    | none =>
      if pullSet then
        .ok ⟨.inserted newId now now, some (dinsert "$type" (MVal.str typeName) b)⟩
      else .ok ⟨.inserted newId now now, none⟩

/-! ## Field-resource registration checks (part_004 lines 2459-2493, 2031-2060) -/

/-- The parts of a `FieldResource` definition the registration checks
inspect.  Go nil-vs-empty slices/maps are kept apart via `Option`. -/
structure FieldResourceDef where
  allow : Nat
  unique : Bool
  pull : Bool
  sortFields : Option (List String)
  patchFields : Option (List String)
  contextRef : Option (List (String × String))
  deriving DecidableEq, Repr

/-- `checkPatchFields` (part_004 lines 2459-2475): the panic message for
the first offending patch field, `none` when all pass. -/
def checkPatchFields (fq : FieldResourceDef) : Option String :=
  match fq.patchFields with
  | none => none
  | some pfs =>
    pfs.findSome? fun v =>
      if v = "Id" ∨ v = "CT" ∨ v = "MT" then some ("can't patch field " ++ v)
      else if v ∈ (fq.contextRef.getD []).map Prod.fst then
        some ("can't patch field " ++ v ++ " which in contextRef")
      else none

/-- `checkFieldResource` (part_004 lines 2476-2481). -/
def checkFieldResource (fq : FieldResourceDef) : Option String :=
  if fq.allow &&& mPUT ≠ 0 ∧ fq.unique = false then
    some "PUT only support unique field resource"
  else checkPatchFields fq

/-- The rejection inside `fqHandler.ensureIndex` (part_004 lines
2046-2049): the `pull and sort fields` panic sits in the `!fq.Unique`
branch, so it is only reached for non-unique resources, and it fires on a
present (non-nil) sort-field slice. -/
def ensureIndexCheck (fq : FieldResourceDef) : Option String :=
  if fq.unique = false then
    if fq.pull = true ∧ fq.sortFields ≠ none then some "pull and sort fields"
    else none
  else none

/-- `rest.defFieldResource` (part_004 lines 2482-2493) runs
`checkFieldResource`, then `ensureIndex`; `none` means the definition
passes these registration checks (shape/field-name validity is a separate
wellformedness concern). -/
def defFieldResourceChecks (fq : FieldResourceDef) : Option String :=
  match checkFieldResource fq with
  | some msg => some msg
  | none => ensureIndexCheck fq

/-! ## Updaters and DELETE (part_004 lines 2179-2294) -/

/-- Go's `strings.ToLower` on field names (ASCII), as a computable
character map. -/
def strToLower (s : String) : String := String.mk (s.data.map Char.toLower)

/-- A nested updater document (`map[string]interface{}` whose values are
maps), e.g. `{"$set": {...}}`. -/
abbrev Doc2 := List (String × Doc)

/-- Lookup in a `Doc2`. -/
def d2lookup (k : String) : Doc2 → Option Doc
  | [] => none
  | (k', v) :: rest => if k' = k then some v else d2lookup k rest

/-- Modelled from the spec: the helper `accMapMap` is called by the
updater builders (part_004 lines 2241-2294) but its definition is not
among the provided sources; per the spec's "update-all with `$set` of that
map" it accumulates `ret[op][key] = value`, creating the inner map when
`op` is absent. -/
def accMapMap : Doc2 → String → String → MVal → Doc2
  | [], op, k, v => [(op, [(k, v)])]
  | (op', d) :: r, op, k, v =>
    if op' = op then (op, dinsert k v d) :: r
    else (op', d) :: accMapMap r op k v

/-- `fqHandler.toMgoUpdaterSetOp` (part_004 lines 2241-2253): folds `$set`
entries into `ret`.  `typeFields` are the shape's declared field names
(`FieldByName`), `patchFields` the declared patch list (`indexOf` on a nil
slice finds nothing, so nil is the empty list here), `enc` abstracts
`valueToBsonElem`'s per-field re-encoding to storage form, `checkPatch`
is the `checkPatchFields` argument.  `none` models the panic on a
disallowed or unknown field. -/
def toMgoUpdaterSetOp (typeFields patchFields : List String)
    (checkPatch : Bool) (enc : String → MVal → MVal) :
    Doc → Doc2 → Option Doc2
  | [], ret => some ret
  | (k, v) :: rest, ret =>
    if checkPatch = true ∧ k ∉ patchFields then none
    else if k ∉ typeFields then none
    else toMgoUpdaterSetOp typeFields patchFields checkPatch enc rest
      (accMapMap ret "$set" (strToLower k) (enc k v))

/-- `fqHandler.toMgoUpdaterAddOp` (part_004 lines 2254-2275):
`$addToSet` for slice fields, `$inc` otherwise; always checks the patch
list. -/
def toMgoUpdaterAddOp (typeFields patchFields : List String)
    (isSliceField : String → Bool) (enc : String → MVal → MVal) :
    Doc → Doc2 → Option Doc2
  | [], ret => some ret
  | (k, v) :: rest, ret =>
    if k ∉ patchFields then none
    else if k ∉ typeFields then none
    else
      toMgoUpdaterAddOp typeFields patchFields isSliceField enc rest
        (accMapMap ret (if isSliceField k then "$addToSet" else "$inc")
          (strToLower k) (enc k v))

/-- `fqHandler.toMgoUpdater` (part_004 lines 2276-2294): dispatches the
patch updater's top-level `Set`/`Add` operations (an unknown operation
panics), then always adds `$set mt = now`. -/
def toMgoUpdater (typeFields patchFields : List String)
    (isSliceField : String → Bool) (enc : String → MVal → MVal)
    (now : Time) : List (String × Doc) → Doc2 → Option Doc2
  | [], ret => some (accMapMap ret "$set" "mt" (MVal.time now))
  | (k, m) :: rest, ret =>
    match
      (if k = "Set" then toMgoUpdaterSetOp typeFields patchFields true enc m ret
       else if k = "Add" then
         toMgoUpdaterAddOp typeFields patchFields isSliceField enc m ret
       else none) with
    | none => none
    | some ret' => toMgoUpdater typeFields patchFields isSliceField enc now rest ret'

/-- The store write a `Delete` performed. -/
inductive DeleteOutcome where
  | removedAll (sel : Doc)
  | updatedAll (sel : Doc) (updater : Doc2)
  deriving DecidableEq, Repr

/-- Embeds `fqHandler.Delete` (part_004 lines 2179-2206).  `q` is the
criterion; `updateWhenDelete` the resource's delete-update map (`none` =
nil); `removeErr`/`updateErr` the store error codes of
`RemoveAll`/`UpdateAll`. -/
def fqDelete (allow : Nat) (q : Doc) (updateWhenDelete : Option Doc)
    (typeFields : List String) (enc : String → MVal → MVal)
    (removeErr updateErr : Option Nat) : Except HErr DeleteOutcome :=
  if allow &&& mDELETE = 0 then .error .methodNotAllowed
  else
    match updateWhenDelete with
    | none =>
      match removeErr with
      | some _ => .error .panicISE
      | none => .ok (.removedAll q)
    | some m =>
      match toMgoUpdaterSetOp typeFields [] false enc m [] with
      | none => .error .panicMsg
      | some updater =>
        match updateErr with
        | some code =>
          if code = 11000 then .error .conflict else .error .internalServerError
        | none => .ok (.updatedAll q updater)

/-- The store's application of a pure-`$set` updater to a stored record
(what `UpdateAll` does to each matching document): each `$set` entry
overwrites that key. -/
def applySet (updater : Doc2) (d : Doc) : Doc :=
  match d2lookup "$set" updater with
  | none => d
  | some s => setStructFieldsDoc d s

/-! ## Timeline iterator and pull drain (part_004 lines 753-763, 834-881,
527-543) -/

/-- One `_timelineItemsNext` store query: the iterator's criterion, the
`_id` cursor filter (`"$lt"`/`"$gt"` with the cursor id), the sort fields,
and the limit (`none` when `all`). -/
structure TLQuery where
  sel : Doc
  idFilter : Option (String × OId)
  sortFields : List String
  limit : Option Int
  deriving DecidableEq, Repr

/-- The query `_timelineItemsNext next n all` issues (part_004 lines
849-870), or `none` when `n ≤ 0` and the function returns the empty slice
without touching the store. -/
def tlNextQuery (sel : Doc) (sortFields : List String) (limit : Int)
    (next : Option OId) (n : Int) (all : Bool) : Option TLQuery :=
  if n ≤ 0 then none
  else
    some
      { sel := sel
        idFilter := next.map fun x =>
          (if sortFields.head? = some "-_id" then "$lt" else "$gt", x)
        sortFields := sortFields
        limit := if all then none
                 else some (if 0 < limit ∧ limit < n then limit else n) }

/-- Observable iterator/context events during `timelineItemsNext`. -/
inductive TLEvent where
  | fetch (q : TLQuery)
  | closeSession
  | wait (key : Doc)
  | reopenSession
  deriving DecidableEq, Repr

/-- Embeds `selectorIter.timelineItemsNext` (part_004 lines 834-848) as a
trace-producing function.  `resp1`/`resp2` are the store's row lists (as
record ids) for the first and the retried fetch; the returned pair is the
event trace and the items.  When `next` is empty the saved `lastId` is
used as the cursor. -/
def timelineItemsNext (pull : Bool) (sel : Doc) (typeName : String)
    (sortFields : List String) (limit : Int) (lastId next0 : Option OId)
    (n : Int) (all : Bool) (resp1 resp2 : List OId) :
    List TLEvent × List OId :=
  let next : Option OId :=
    match next0 with
    | none => lastId
    | some x => some x
  match tlNextQuery sel sortFields limit next n all with
  | none =>
    if pull = true then
      ([TLEvent.closeSession, TLEvent.wait (dinsert "$type" (MVal.str typeName) sel),
        TLEvent.reopenSession], [])
    else ([], [])
  | some q =>
    if pull = true ∧ resp1 = [] then
      ([TLEvent.fetch q, TLEvent.closeSession,
        TLEvent.wait (dinsert "$type" (MVal.str typeName) sel),
        TLEvent.reopenSession, TLEvent.fetch q], resp2)
    else ([TLEvent.fetch q], resp1)

/-- `Context` session legality (part_004 lines 527-543): `some true` =
session open, `some false` = released (`ctx.s = nil`), `none` = a panic
(`Close` on a nil session, `reopen` while open, or a store fetch with the
session released). -/
def ctxStep : Option Bool → TLEvent → Option Bool
  | some true, .closeSession => some false
  | some true, .reopenSession => none
  | some true, .fetch _ => some true
  | some true, .wait _ => some true
  | some false, .closeSession => none
  | some false, .reopenSession => some true
  | some false, .fetch _ => none
  | some false, .wait _ => some false
  | none, _ => none

/-- Run a trace against an initially open context. -/
def runCtx (evs : List TLEvent) : Option Bool :=
  evs.foldl ctxStep (some true)

/-! # Theorems -/

/-! ## Association-list lemmas -/

theorem dlookup_isSome_iff_mem (k : String) (m : Doc) :
    (dlookup k m).isSome = true ↔ k ∈ dkeys m := by
  induction m with
  | nil => simp [dlookup, dkeys]
  | cons hd tl ih =>
    obtain ⟨k', v⟩ := hd
    by_cases h : k' = k
    · subst h
      simp [dlookup, dkeys]
    · simp [dlookup, dkeys, h, ih, Ne.symm h]

theorem dlookup_dinsert_self (k : String) (v : MVal) (m : Doc) :
    dlookup k (dinsert k v m) = some v := by
  induction m with
  | nil => simp [dinsert, dlookup]
  | cons hd tl ih =>
    obtain ⟨a, b⟩ := hd
    by_cases h : a = k
    · simp [dinsert, dlookup, h]
    · simp [dinsert, dlookup, h, ih]

theorem dlookup_dinsert_ne (k k' : String) (v : MVal) (m : Doc) (h : k' ≠ k) :
    dlookup k (dinsert k' v m) = dlookup k m := by
  induction m with
  | nil => simp [dinsert, dlookup, h]
  | cons hd tl ih =>
    obtain ⟨a, b⟩ := hd
    by_cases h1 : a = k'
    · subst h1
      simp [dinsert, dlookup, h]
    · by_cases h2 : a = k <;> simp [dinsert, dlookup, h1, h2, ih, Ne.symm h]

/-! ## Regular-expression lemmas -/

theorem Re.matchesL_nul (s : List Char) : Re.matchesL Re.nul s = false := by
  induction s with
  | nil => rfl
  | cons c s ih => simpa [Re.matchesL, Re.deriv] using ih

theorem Re.matchesL_eps (s : List Char) : Re.matchesL Re.eps s = s.isEmpty := by
  cases s with
  | nil => rfl
  | cons c s => simp [Re.matchesL, Re.deriv, Re.matchesL_nul, List.isEmpty]

theorem Re.matchesL_alt (a b : Re) (s : List Char) :
    Re.matchesL (Re.alt a b) s = (Re.matchesL a s || Re.matchesL b s) := by
  induction s generalizing a b with
  | nil => rfl
  | cons c s ih => simpa [Re.matchesL, Re.deriv] using ih (Re.deriv a c) (Re.deriv b c)

/-! ## Claim C5: resource-name validator -/

/-- C5 counterexample: the validator accepts the empty string, which the
grammar `^-?([a-z0-9]+-)*[a-z0-9]+$` stated in the claim rejects — the
compiled pattern has an extra empty alternative. -/
theorem isQueryName_empty_counterexample :
    isQueryName "" = true ∧ Re.matchRe grammarRe "" = false := by
  constructor <;> decide

/-- C5 (amended): for every string `s`, the resource-name validator returns
whether `s` matches `^(-?([a-z0-9]+-)*[a-z0-9]+|)$`, i.e. the claimed
grammar *or* the empty string; in particular `""`, `"abc"`, `"a-b-c"`,
`"-abc"` are accepted and `"-"`, `"a-b-"`, `"aa--bb"` are rejected. -/
theorem isQueryName_spec :
    (∀ s : String, isQueryName s = (Re.matchRe grammarRe s || s.data.isEmpty))
    ∧ isQueryName "" = true ∧ isQueryName "abc" = true ∧ isQueryName "a-b-c" = true
    ∧ isQueryName "-abc" = true ∧ isQueryName "-" = false ∧ isQueryName "a-b-" = false
    ∧ isQueryName "aa--bb" = false := by
  refine ⟨fun s => ?_, by decide, by decide, by decide, by decide, by decide,
    by decide, by decide⟩
  simp [isQueryName, Re.matchRe, queryNameRe, Re.matchesL_alt, Re.matchesL_eps]

/-! ## Claim C2: count semantics -/

/-- C2: with `count` configured and `limit > 0`, the iterator counts with
`limit + 1`: when more than `limit` records match it reports
`(limit, more = true)`, otherwise the exact count with `more = false`. -/
theorem selectorIterCount_spec (matchN limit : Nat) (h : 0 < limit) :
    (limit < matchN → selectorIterCount matchN limit = (limit, true))
    ∧ (matchN ≤ limit → selectorIterCount matchN limit = (matchN, false)) := by
  constructor
  · intro hlt
    have hm : min matchN (limit + 1) = limit + 1 := by omega
    simp [selectorIterCount, h, hm]
  · intro hle
    have hm : min matchN (limit + 1) = matchN := by omega
    simp [selectorIterCount, h, hm, Nat.not_lt.mpr hle]

/-- C2 witness: at `limit = 4`, 10 matches report `(4, true)` and 3 matches
report `(3, false)`. -/
theorem selectorIterCount_spec_witness :
    selectorIterCount 10 4 = (4, true) ∧ selectorIterCount 3 4 = (3, false) :=
  ⟨(selectorIterCount_spec 10 4 (by decide)).1 (by decide),
   (selectorIterCount_spec 3 4 (by decide)).2 (by decide)⟩

/-! ## Claim C6: skip-based `prev` -/

/-- C6: the `prev` link produced for a page requested at offset `c` with
page size `n` carries offset `c - n` and page size `min n c`, and no `prev`
link is produced when `c = 0`. -/
theorem sortedPrev_spec :
    (∀ n : Int, sortedPrev 0 n = none)
    ∧ ∀ c n c' n' : Int, sortedPrev c n = some (c', n') →
        c' = c - n ∧ n' = min n c := by
  constructor
  · intro n
    have h2 : (if (0 : Int) - n < 0 then n + (0 - n) else n) ≤ 0 := by
      split <;> omega
    simp only [sortedPrev]
    rw [if_pos h2]
  · intro c n c' n' h
    simp only [sortedPrev] at h
    by_cases h1 : c - n < 0
    · by_cases h2 : n + (c - n) ≤ 0
      · simp [h1, h2] at h
        omega
      · simp [h1, h2] at h
        omega
    · by_cases h2 : n ≤ 0
      · simp [h1, h2] at h
      · simp [h1, h2] at h
        omega

/-- C6 witness: at offset 5 with page size 3, `prev` is `(c = 2, n = 3)`
and indeed `2 = 5 - 3` and `3 = min 3 5`. -/
theorem sortedPrev_spec_witness :
    sortedPrev 5 3 = some (2, 3) ∧ (2 : Int) = 5 - 3 ∧ (3 : Int) = min 3 5 :=
  ⟨by decide, (sortedPrev_spec.2 5 3 2 3 (by decide)).1,
   (sortedPrev_spec.2 5 3 2 3 (by decide)).2⟩

/-! ## Claim C9: `Slice.HasItems` -/

/-- C9: part_004's `HasItems` returns whether the items slice is non-nil,
matching `Items` (which panics exactly on a nil slice); part_005's
`HasItems` is inverted — it returns `true` precisely when `Items` would
panic — contradicting its own accessor. -/
theorem selectorSliceHasItems_bug :
    selectorSliceHasItems (some [MVal.str "x"]) = true
    ∧ selectorSliceHasItems none = false
    ∧ selectorSliceHasItemsV5 (some [MVal.str "x"]) = false
    ∧ selectorSliceHasItemsV5 none = true
    ∧ selectorSliceItems none = Except.error "no items" :=
  ⟨rfl, rfl, rfl, rfl, rfl⟩

/-! ## Condition-broadcaster lemmas and claim C4 -/

theorem mem_insSorted (x a : String) (l : List String) :
    x ∈ insSorted a l ↔ x = a ∨ x ∈ l := by
  induction l with
  | nil => simp [insSorted]
  | cons b r ih =>
    by_cases h : a ≤ b
    · simp [insSorted, h]
    · simp only [insSorted, if_neg h, List.mem_cons, ih]
      tauto

theorem mem_sortStrings (x : String) (l : List String) :
    x ∈ sortStrings l ↔ x ∈ l := by
  induction l with
  | nil => simp [sortStrings]
  | cons a r ih => simp [sortStrings, mem_insSorted, ih]

theorem matchKeySet_append_pad (l : List String) (p : Nat) (m : Doc)
    (h : "" ∉ l) :
    matchKeySet (l ++ List.replicate p "") m
      = l.all fun k => (dlookup k m).isSome := by
  induction l with
  | nil =>
    cases p with
    | zero => rfl
    | succ q => simp [matchKeySet]
  | cons k r ih =>
    have hk : k ≠ "" := fun e => h (by rw [← e]; exact List.mem_cons_self k r)
    have hr : "" ∉ r := fun hm => h (List.mem_cons_of_mem _ hm)
    simp [matchKeySet, hk, ih hr]

theorem getValArray_append_pad (l : List String) (p : Nat) (m : Doc)
    (h : "" ∉ l) :
    getValArray m (l ++ List.replicate p "")
      = (l.map fun k => dlookup k m) ++ List.replicate p none := by
  induction l with
  | nil =>
    cases p with
    | zero => rfl
    | succ q => simp [getValArray]
  | cons k r ih =>
    have hk : k ≠ "" := fun e => h (by rw [← e]; exact List.mem_cons_self k r)
    have hr : "" ∉ r := fun hm => h (List.mem_cons_of_mem _ hm)
    simp [getValArray, hk, ih hr]

/-- C4: a broadcast of `m` signals a waiter registered on `cond` (at most
8 keys, none empty) exactly when `cond`'s key set is a subset of `m`'s
keys and the two maps agree on those keys; and the id list signalled by a
single broadcast contains any given waiter at most once — a waiter with no
matching broadcast is never signalled, so it observes its timeout. -/
theorem mapCond_broadcast_spec (cond m : Doc) (_hlen : cond.length ≤ 8)
    (hnk : "" ∉ dkeys cond) :
    (condSignalled cond m = true ↔
      (∀ k ∈ dkeys cond, k ∈ dkeys m)
        ∧ ∀ k ∈ dkeys cond, dlookup k m = dlookup k cond)
    ∧ ∀ ws : List Waiter, (ws.map Waiter.id).Nodup →
        ∀ i : Nat, (broadcastSignalled ws m).count i ≤ 1 := by
  constructor
  · have hns : "" ∉ sortStrings (dkeys cond) :=
      fun hm => hnk ((mem_sortStrings _ _).mp hm)
    rw [condSignalled, getKeySet, matchKeySet_append_pad _ _ _ hns,
      getValArray_append_pad _ _ _ hns, getValArray_append_pad _ _ _ hns,
      Bool.and_eq_true, List.all_eq_true, decide_eq_true_eq]
    constructor
    · rintro ⟨h1, h2⟩
      have h2' := List.append_cancel_right h2
      rw [List.map_eq_map_iff] at h2'
      refine ⟨fun k hk => ?_, fun k hk => ?_⟩
      · exact (dlookup_isSome_iff_mem k m).mp (h1 k ((mem_sortStrings _ _).mpr hk))
      · exact h2' k ((mem_sortStrings _ _).mpr hk)
    · rintro ⟨h1, h2⟩
      refine ⟨fun k hk => ?_, ?_⟩
      · exact (dlookup_isSome_iff_mem k m).mpr (h1 k ((mem_sortStrings _ _).mp hk))
      · exact congrArg (· ++ _)
          (List.map_eq_map_iff.mpr fun k hk => h2 k ((mem_sortStrings _ _).mp hk))
  · intro ws hnd i
    have hsub :
        List.Sublist ((ws.filter fun w => condSignalled w.cond m).map Waiter.id)
          (ws.map Waiter.id) :=
      List.Sublist.map _ (List.filter_sublist ws)
    simpa [broadcastSignalled] using
      List.nodup_iff_count_le_one.mp (List.Nodup.sublist hsub hnd) i

/-- C4 witness: a waiter on `{s: "hello", n: 10, b: false}` is signalled by
a broadcast of that map extended with two extra keys, and a concrete
broadcast signals waiter 0 at most once. -/
theorem mapCond_broadcast_spec_witness :
    condSignalled
        [("s", MVal.str "hello"), ("n", MVal.int 10), ("b", MVal.bool false)]
        [("s", MVal.str "hello"), ("n", MVal.int 10), ("b", MVal.bool false),
         ("f", MVal.str "3.14"), ("a", MVal.str "arr")] = true
    ∧ (broadcastSignalled
        [⟨0, [("s", MVal.str "hello")]⟩, ⟨1, [("x", MVal.int 1)]⟩]
        [("s", MVal.str "hello"), ("n", MVal.int 10)]).count 0 ≤ 1 :=
  ⟨(mapCond_broadcast_spec _ _ (by decide) (by decide)).1.mpr
      ⟨by decide, by decide⟩,
   (mapCond_broadcast_spec [("x", MVal.int 1)] _ (by decide) (by decide)).2
      _ (by decide) 0⟩

/-! ## Claim C1: PUT -/

/-- C1 counterexample: with PUT allowed and no matching record, a request
body carrying identity 7 is inserted with identity 7, not with the freshly
minted identity 42 — the insert branch of `Put` keeps a body-supplied
identity instead of always assigning a fresh one. -/
theorem fqPut_bodyId_counterexample :
    fqPut mPUT (some 7) 42 100 none none none = .ok (.inserted 7 100 100)
    ∧ (7 : OId) ≠ 42 :=
  ⟨rfl, by decide⟩

/-- C1 (amended): with PUT in the verb mask, when the criterion matches no
stored record `Put` inserts with `ct = mt = now` and a fresh identity when
the request body carries none (a body-supplied identity is preserved);
when it matches, `Put` upserts by the stored record's identity, preserving
that identity and its `ct` and setting `mt = now`; in both branches a
duplicate-key store error (code 11000) yields `Conflict`. -/
theorem fqPut_spec (allow : Nat) (bodyId : Option OId) (newId : OId)
    (now : Time) (found : Option (OId × Time))
    (insertErr upsertErr : Option Nat) (hallow : allow &&& mPUT ≠ 0) :
    (found = none → insertErr = none → bodyId = none →
      fqPut allow bodyId newId now found insertErr upsertErr
        = .ok (.inserted newId now now))
    ∧ (found = none → insertErr = none → ∀ j, bodyId = some j →
      fqPut allow bodyId newId now found insertErr upsertErr
        = .ok (.inserted j now now))
    ∧ (∀ oldId oldCt, found = some (oldId, oldCt) → upsertErr = none →
      fqPut allow bodyId newId now found insertErr upsertErr
        = .ok (.upserted oldId oldCt now))
    ∧ (found = none → insertErr = some 11000 →
      fqPut allow bodyId newId now found insertErr upsertErr
        = .error .conflict)
    ∧ (∀ p, found = some p → upsertErr = some 11000 →
      fqPut allow bodyId newId now found insertErr upsertErr
        = .error .conflict) := by
  refine ⟨?_, ?_, ?_, ?_, ?_⟩
  · rintro rfl rfl rfl
    simp [fqPut, hallow]
  · rintro rfl rfl j rfl
    simp [fqPut, hallow]
  · rintro oldId oldCt rfl rfl
    simp [fqPut, hallow]
  · rintro rfl rfl
    simp [fqPut, hallow]
  · rintro ⟨oldId, oldCt⟩ rfl rfl
    simp [fqPut, hallow]

/-- C1 witness: all branches at concrete inputs — fresh insert, id-keeping
insert, identity/ct-preserving upsert, and both Conflict paths. -/
theorem fqPut_spec_witness :
    fqPut 2 none 42 100 none none none = .ok (.inserted 42 100 100)
    ∧ fqPut 2 (some 7) 42 100 none none none = .ok (.inserted 7 100 100)
    ∧ fqPut 2 none 42 100 (some (7, 50)) none none = .ok (.upserted 7 50 100)
    ∧ fqPut 2 none 42 100 none (some 11000) none = .error .conflict
    ∧ fqPut 2 none 42 100 (some (7, 50)) none (some 11000) = .error .conflict :=
  ⟨(fqPut_spec 2 none 42 100 none none none (by decide)).1 rfl rfl rfl,
   (fqPut_spec 2 (some 7) 42 100 none none none (by decide)).2.1 rfl rfl 7 rfl,
   (fqPut_spec 2 none 42 100 (some (7, 50)) none none (by decide)).2.2.1 7 50 rfl rfl,
   (fqPut_spec 2 none 42 100 none (some 11000) none (by decide)).2.2.2.1 rfl rfl,
   (fqPut_spec 2 none 42 100 (some (7, 50)) none (some 11000) (by decide)).2.2.2.2
     (7, 50) rfl rfl⟩

/-! ## `setStructFields` lemmas -/

theorem dlookup_setStructFields_not_mem (body crit : Doc) (k : String)
    (h : k ∉ dkeys crit) :
    dlookup k (setStructFieldsDoc body crit) = dlookup k body := by
  induction crit generalizing body with
  | nil => rfl
  | cons kv rest ih =>
    have hk : kv.1 ≠ k := fun e => h (e ▸ List.mem_cons_self kv.1 (dkeys rest))
    have hr : k ∉ dkeys rest := fun hm => h (List.mem_cons_of_mem _ hm)
    rw [setStructFieldsDoc, List.foldl_cons, ← setStructFieldsDoc, ih _ hr,
      dlookup_dinsert_ne _ _ _ _ hk]

theorem dlookup_setStructFields_mem (body crit : Doc) (k : String)
    (hnd : (dkeys crit).Nodup) (h : k ∈ dkeys crit) :
    dlookup k (setStructFieldsDoc body crit) = dlookup k crit := by
  induction crit generalizing body with
  | nil => cases h
  | cons kv rest ih =>
    rw [setStructFieldsDoc, List.foldl_cons, ← setStructFieldsDoc]
    by_cases he : kv.1 = k
    · have hnr : k ∉ dkeys rest := by
        have := (List.nodup_cons.mp hnd).1
        exact fun hm => this (he ▸ hm)
      rw [dlookup_setStructFields_not_mem _ _ _ hnr, ← he,
        dlookup_dinsert_self]
      simp [dlookup]
    · have hr : k ∈ dkeys rest := by
        rcases List.mem_cons.mp h with h1 | h1
        · exact absurd h1.symm he
        · exact h1
      rw [ih _ (List.nodup_cons.mp hnd).2 hr]
      simp [dlookup, he]

/-! ## Claim C7: POST broadcast -/

/-- C7 counterexample: a successful pull POST broadcasts the inserted
record's stored document (with `_id`, `mt`, `ct` and all fields) plus
`$type` — not the criterion plus `$type`: here `_id` is in the broadcast
map but not in the criterion-plus-`$type` map. -/
theorem fqPost_broadcast_counterexample :
    fqPost mPOST [("s1", MVal.str "a")] [("s1", MVal.str "x"), ("s2", MVal.str "b")]
        1 10 none true "msg"
      = .ok ⟨.inserted 1 10 10,
          some [("_id", MVal.oid 1), ("mt", MVal.time 10), ("ct", MVal.time 10),
                ("s1", MVal.str "a"), ("s2", MVal.str "b"),
                ("$type", MVal.str "msg")]⟩
    ∧ dlookup "_id"
        [("_id", MVal.oid 1), ("mt", MVal.time 10), ("ct", MVal.time 10),
         ("s1", MVal.str "a"), ("s2", MVal.str "b"),
         ("$type", MVal.str "msg")] = some (MVal.oid 1)
    ∧ dlookup "_id"
        (dinsert "$type" (MVal.str "msg") [("s1", MVal.str "a")]) = none := by
  refine ⟨rfl, by decide, by decide⟩

/-- C7 (amended): after a successful insert on a pull shape, `Post`
broadcasts the inserted record's stored document extended with the single
extra key `$type` mapped to the shape name; since the criterion was
mirrored into the record, the broadcast map carries `$type = shape` and
agrees with the criterion on every criterion key (so it is a superset of
the claimed map, not equal to it). -/
theorem fqPost_spec (allow : Nat) (crit bodyFields : Doc) (newId : OId)
    (now : Time) (typeName : String) (hallow : allow &&& mPOST ≠ 0)
    (hnodup : (dkeys crit).Nodup)
    (hbase : ∀ k ∈ dkeys crit,
      k ≠ "_id" ∧ k ≠ "mt" ∧ k ≠ "ct" ∧ k ≠ "$type") :
    ∃ b : Doc,
      fqPost allow crit bodyFields newId now none true typeName
        = .ok ⟨.inserted newId now now, some b⟩
      ∧ dlookup "$type" b = some (MVal.str typeName)
      ∧ ∀ k ∈ dkeys crit, dlookup k b = dlookup k crit := by
  refine ⟨dinsert "$type" (MVal.str typeName)
    (structToBsonDoc newId now now (setStructFieldsDoc bodyFields crit)),
    ?_, dlookup_dinsert_self _ _ _, ?_⟩
  · simp [fqPost, hallow]
  · intro k hk
    obtain ⟨h1, h2, h3, h4⟩ := hbase k hk
    rw [dlookup_dinsert_ne _ _ _ _ (fun e => h4 e.symm)]
    rw [structToBsonDoc]
    simp only [List.cons_append, List.nil_append, dlookup,
      if_neg (fun e : "_id" = k => h1 e.symm),
      if_neg (fun e : "mt" = k => h2 e.symm),
      if_neg (fun e : "ct" = k => h3 e.symm)]
    exact dlookup_setStructFields_mem _ _ _ hnodup hk

/-- C7 witness: concrete pull POST whose broadcast carries `$type` and the
criterion's binding. -/
theorem fqPost_spec_witness :
    ∃ b : Doc,
      fqPost 8 [("s1", MVal.str "a")] [("s1", MVal.str "x"), ("s2", MVal.str "b")]
          1 10 none true "msg"
        = .ok ⟨.inserted 1 10 10, some b⟩
      ∧ dlookup "$type" b = some (MVal.str "msg")
      ∧ ∀ k ∈ dkeys [("s1", MVal.str "a")],
          dlookup k b = dlookup k [("s1", MVal.str "a")] :=
  fqPost_spec 8 [("s1", MVal.str "a")] [("s1", MVal.str "x"), ("s2", MVal.str "b")]
    1 10 "msg" (by decide) (by decide) (by decide)

/-! ## Claim C8: registration checks -/

theorem defFieldResourceChecks_none_iff (fq : FieldResourceDef) :
    defFieldResourceChecks fq = none ↔
      checkFieldResource fq = none ∧ ensureIndexCheck fq = none := by
  cases hc : checkFieldResource fq <;> simp [defFieldResourceChecks, hc]

theorem checkFieldResource_none_iff (fq : FieldResourceDef) :
    checkFieldResource fq = none ↔
      ¬(fq.allow &&& mPUT ≠ 0 ∧ fq.unique = false)
        ∧ checkPatchFields fq = none := by
  by_cases h : fq.allow &&& mPUT ≠ 0 ∧ fq.unique = false <;>
    simp [checkFieldResource, h]

theorem ensureIndexCheck_none_iff (fq : FieldResourceDef) :
    ensureIndexCheck fq = none ↔
      (fq.unique = false → ¬(fq.pull = true ∧ fq.sortFields ≠ none)) := by
  by_cases h : fq.unique = false
  · by_cases h2 : fq.pull = true ∧ fq.sortFields ≠ none <;>
      simp [ensureIndexCheck, h, h2]
  · simp [ensureIndexCheck, h]

theorem checkPatchFields_none_iff (fq : FieldResourceDef) :
    checkPatchFields fq = none ↔
      ∀ pfs, fq.patchFields = some pfs → ∀ v ∈ pfs,
        v ≠ "Id" ∧ v ≠ "CT" ∧ v ≠ "MT"
          ∧ v ∉ (fq.contextRef.getD []).map Prod.fst := by
  cases hpf : fq.patchFields with
  | none => simp [checkPatchFields, hpf]
  | some pfs =>
    simp only [checkPatchFields, hpf, List.findSome?_eq_none_iff]
    constructor
    · intro h pfs' hp
      injection hp with hp
      subst hp
      intro v hv
      have hval := h v hv
      by_cases h1 : v = "Id" ∨ v = "CT" ∨ v = "MT"
      · rw [if_pos h1] at hval
        exact absurd hval (by simp)
      · rw [if_neg h1] at hval
        push_neg at h1
        refine ⟨h1.1, h1.2.1, h1.2.2, fun h2 => ?_⟩
        rw [if_pos h2] at hval
        exact absurd hval (by simp)
    · intro h v hv
      obtain ⟨h1, h2, h3, h4⟩ := h pfs rfl v hv
      rw [if_neg (by tauto), if_neg h4]

/-- C8 counterexample: a *unique* field resource with `Pull` set and a
non-empty sort-field list passes every registration check — the "pull and
sort fields" rejection sits in `ensureIndex`'s non-unique branch, so the
claimed unconditional rejection of `Pull ∧ SortFields ≠ ∅` fails here. -/
theorem defFieldResourceChecks_pull_sort_counterexample :
    defFieldResourceChecks ⟨mGET, true, true, some ["S1"], none, none⟩ = none
    ∧ (⟨mGET, true, true, some ["S1"], none, none⟩ : FieldResourceDef).pull = true
    ∧ (⟨mGET, true, true, some ["S1"], none, none⟩ :
        FieldResourceDef).sortFields = some ["S1"] :=
  ⟨rfl, rfl, rfl⟩

/-- C8 (amended): registration of a field resource is rejected whenever
PUT is in the verb mask but Unique is false, whenever the resource is
*not Unique* and Pull is set together with a present (non-nil) sort-field
list, or whenever a declared patch field is `Id`, `CT`, `MT`, or a
context-referenced field; a definition violating none of these passes the
registration checks. -/
theorem defFieldResourceChecks_spec (fq : FieldResourceDef) :
    defFieldResourceChecks fq = none ↔
      (fq.allow &&& mPUT ≠ 0 → fq.unique = true)
      ∧ (fq.unique = false → fq.pull = true → fq.sortFields = none)
      ∧ (∀ pfs, fq.patchFields = some pfs → ∀ v ∈ pfs,
          v ≠ "Id" ∧ v ≠ "CT" ∧ v ≠ "MT"
            ∧ v ∉ (fq.contextRef.getD []).map Prod.fst) := by
  rw [defFieldResourceChecks_none_iff, checkFieldResource_none_iff,
    ensureIndexCheck_none_iff, checkPatchFields_none_iff]
  constructor
  · rintro ⟨⟨h1, h2⟩, h3⟩
    refine ⟨?_, ?_, h2⟩
    · intro ha
      cases hu : fq.unique
      · exact absurd ⟨ha, hu⟩ h1
      · rfl
    · intro hu hp
      by_cases hs : fq.sortFields = none
      · exact hs
      · exact absurd ⟨hp, hs⟩ (h3 hu)
  · rintro ⟨h1, h2, h3⟩
    refine ⟨⟨?_, h3⟩, ?_⟩
    · rintro ⟨ha, hu⟩
      rw [h1 ha] at hu
      cases hu
    · intro hu
      rintro ⟨hp, hs⟩
      exact hs (h2 hu hp)

/-! ## Updater lemmas -/

theorem dlookup_mem_of_some (k : String) (v : MVal) (m : Doc)
    (h : dlookup k m = some v) : k ∈ dkeys m :=
  (dlookup_isSome_iff_mem k m).mp (by rw [h]; rfl)

theorem dinsert_eq_append (k : String) (v : MVal) (d : Doc)
    (h : k ∉ dkeys d) : dinsert k v d = d ++ [(k, v)] := by
  induction d with
  | nil => rfl
  | cons a r ih =>
    obtain ⟨a1, a2⟩ := a
    have h1 : a1 ≠ k := fun e => h (e ▸ List.mem_cons_self a1 (dkeys r))
    have h2 : k ∉ dkeys r := fun hm => h (List.mem_cons_of_mem _ hm)
    simp [dinsert, h1, ih h2]

theorem setStructFieldsDoc_fresh (l : Doc) :
    ∀ acc : Doc, (∀ k ∈ dkeys l, k ∉ dkeys acc) → (dkeys l).Nodup →
      setStructFieldsDoc acc l = acc ++ l := by
  induction l with
  | nil =>
    intro acc _ _
    simp [setStructFieldsDoc]
  | cons kv rest ih =>
    intro acc hfresh hnd
    simp only [dkeys, List.map_cons, List.nodup_cons] at hnd
    rw [setStructFieldsDoc, List.foldl_cons, ← setStructFieldsDoc]
    rw [dinsert_eq_append _ _ _ (hfresh kv.1 (List.mem_cons_self kv.1 (dkeys rest)))]
    have hfr : ∀ k ∈ dkeys rest, k ∉ dkeys (acc ++ [kv]) := by
      intro k hk
      have hk1 : k ∉ dkeys acc := hfresh k (List.mem_cons_of_mem kv.1 hk)
      have hk2 : k ≠ kv.1 := fun e => hnd.1 (e ▸ hk)
      intro hmem
      rw [dkeys, List.map_append] at hmem
      rcases List.mem_append.mp hmem with hmm | hmm
      · exact hk1 hmm
      · simp at hmm
        exact hk2 hmm
    rw [ih (acc ++ [kv]) hfr hnd.2]
    simp

theorem foldl_accMapMap_set (enc : String → MVal → MVal) (m : Doc) :
    ∀ d : Doc,
      m.foldl (fun r kv => accMapMap r "$set" (strToLower kv.1) (enc kv.1 kv.2))
          [("$set", d)]
        = [("$set",
            m.foldl (fun dd kv => dinsert (strToLower kv.1) (enc kv.1 kv.2) dd) d)] := by
  induction m with
  | nil => intro d; rfl
  | cons kv rest ih =>
    intro d
    rw [List.foldl_cons, List.foldl_cons]
    have hstep :
        accMapMap [("$set", d)] "$set" (strToLower kv.1) (enc kv.1 kv.2)
          = [("$set", dinsert (strToLower kv.1) (enc kv.1 kv.2) d)] := by
      simp [accMapMap]
    rw [hstep, ih]

theorem foldl_accMapMap_set_from_nil (enc : String → MVal → MVal) (m : Doc)
    (hne : m ≠ []) :
    m.foldl (fun r kv => accMapMap r "$set" (strToLower kv.1) (enc kv.1 kv.2)) []
      = [("$set",
          m.foldl (fun dd kv => dinsert (strToLower kv.1) (enc kv.1 kv.2) dd) [])] := by
  cases m with
  | nil => exact absurd rfl hne
  | cons kv rest =>
    rw [List.foldl_cons, List.foldl_cons]
    exact foldl_accMapMap_set enc rest [(strToLower kv.1, enc kv.1 kv.2)]

theorem foldl_dinsert_toLower (enc : String → MVal → MVal) (m : Doc) :
    ∀ acc : Doc, (∀ k ∈ dkeys m, (strToLower k) ∉ dkeys acc) →
      ((dkeys m).map strToLower).Nodup →
      m.foldl (fun dd kv => dinsert (strToLower kv.1) (enc kv.1 kv.2) dd) acc
        = acc ++ m.map fun kv => (strToLower kv.1, enc kv.1 kv.2) := by
  induction m with
  | nil =>
    intro acc _ _
    simp
  | cons kv rest ih =>
    intro acc hfresh hnd
    simp only [dkeys, List.map_cons, List.nodup_cons] at hnd
    rw [List.foldl_cons,
      dinsert_eq_append _ _ _ (hfresh kv.1 (List.mem_cons_self kv.1 (dkeys rest)))]
    have hfr : ∀ k ∈ dkeys rest,
        (strToLower k) ∉ dkeys (acc ++ [(strToLower kv.1, enc kv.1 kv.2)]) := by
      intro k hk
      have hk1 : (strToLower k) ∉ dkeys acc :=
        hfresh k (List.mem_cons_of_mem kv.1 hk)
      have hk2 : (strToLower k) ≠ (strToLower kv.1) := by
        intro e
        exact hnd.1 (e ▸ List.mem_map_of_mem strToLower hk)
      intro hmem
      rw [dkeys, List.map_append] at hmem
      rcases List.mem_append.mp hmem with hmm | hmm
      · exact hk1 hmm
      · simp at hmm
        exact hk2 hmm
    rw [ih (acc ++ [(strToLower kv.1, enc kv.1 kv.2)]) hfr hnd.2]
    simp

theorem toMgoUpdaterSetOp_nocheck (tf : List String)
    (enc : String → MVal → MVal) (m : Doc) :
    ∀ ret : Doc2, (∀ k ∈ dkeys m, k ∈ tf) →
      toMgoUpdaterSetOp tf [] false enc m ret
        = some (m.foldl
            (fun r kv => accMapMap r "$set" (strToLower kv.1) (enc kv.1 kv.2)) ret) := by
  induction m with
  | nil => intro ret _; rfl
  | cons kv rest ih =>
    intro ret h
    obtain ⟨k, v⟩ := kv
    have hk : k ∈ tf := h k (by simp [dkeys])
    have hr : ∀ k' ∈ dkeys rest, k' ∈ tf := fun k' hk' =>
      h k' (List.mem_cons_of_mem _ hk')
    rw [toMgoUpdaterSetOp, if_neg (by simp), if_neg (not_not_intro hk),
      List.foldl_cons, ih _ hr]

theorem dlookup_map_toLower (enc : String → MVal → MVal) (m : Doc) :
    ∀ (k : String) (v : MVal), ((dkeys m).map strToLower).Nodup →
      dlookup k m = some v →
      dlookup (strToLower k) (m.map fun kv => (strToLower kv.1, enc kv.1 kv.2))
        = some (enc k v) := by
  induction m with
  | nil => intro k v _ h; cases h
  | cons a rest ih =>
    intro k v hnd h
    obtain ⟨a1, a2⟩ := a
    simp only [dkeys, List.map_cons, List.nodup_cons] at hnd
    rw [dlookup] at h
    by_cases he : a1 = k
    · subst he
      rw [if_pos rfl] at h
      injection h with h
      subst h
      simp [dlookup]
    · rw [if_neg he] at h
      have hkm : k ∈ dkeys rest := dlookup_mem_of_some _ _ _ h
      have hne : (strToLower a1) ≠ (strToLower k) := by
        intro e
        exact hnd.1 (e ▸ List.mem_map_of_mem strToLower hkm)
      simp only [List.map_cons, dlookup, if_neg hne]
      exact ih k v hnd.2 h

theorem accMapMap_set_lookup (ret : Doc2) :
    ∀ (k : String) (v : MVal),
      ∃ s, d2lookup "$set" (accMapMap ret "$set" k v) = some s
        ∧ dlookup k s = some v := by
  induction ret with
  | nil =>
    intro k v
    exact ⟨[(k, v)], by simp [accMapMap, d2lookup], by simp [dlookup]⟩
  | cons hd r ih =>
    obtain ⟨op', d⟩ := hd
    intro k v
    by_cases h : op' = "$set"
    · subst h
      refine ⟨dinsert k v d, ?_, dlookup_dinsert_self _ _ _⟩
      simp [accMapMap, d2lookup]
    · obtain ⟨s, hs1, hs2⟩ := ih k v
      refine ⟨s, ?_, hs2⟩
      simp [accMapMap, d2lookup, h, hs1]

theorem toMgoUpdater_mt (tf pf : List String) (isSlice : String → Bool)
    (enc : String → MVal → MVal) (now : Time) (ops : List (String × Doc)) :
    ∀ (ret : Doc2) (u' : Doc2),
      toMgoUpdater tf pf isSlice enc now ops ret = some u' →
      ∃ s', d2lookup "$set" u' = some s'
        ∧ dlookup "mt" s' = some (MVal.time now) := by
  induction ops with
  | nil =>
    intro ret u' h
    rw [toMgoUpdater] at h
    injection h with h
    subst h
    exact accMapMap_set_lookup ret "mt" (MVal.time now)
  | cons kv rest ih =>
    obtain ⟨k, mm⟩ := kv
    intro ret u' h
    rw [toMgoUpdater] at h
    rcases hs : (if k = "Set" then toMgoUpdaterSetOp tf pf true enc mm ret
        else if k = "Add" then toMgoUpdaterAddOp tf pf isSlice enc mm ret
        else none) with _ | ret'
    · rw [hs] at h
      cases h
    · rw [hs] at h
      exact ih ret' u' h

/-! ## Claim C10: soft delete -/

/-- C10: for a field resource whose delete-update map is non-empty, DELETE
performs an update-all whose updater is a single `$set` of exactly the
map's fields — key names lowercased, values re-encoded to storage form —
so applying it leaves `_id`, `ct` and `mt` of every matching record
unchanged; by contrast the PATCH updater always carries
`$set mt = now`. -/
theorem fqDelete_softDelete_spec (allow : Nat) (q : Doc) (m : Doc)
    (tf pf : List String) (isSlice : String → Bool)
    (enc : String → MVal → MVal) (now : Time)
    (hallow : allow &&& mDELETE ≠ 0) (hne : m ≠ [])
    (hf : ∀ k ∈ dkeys m, k ∈ tf)
    (hnd : ((dkeys m).map strToLower).Nodup)
    (hbase : ∀ k ∈ dkeys m,
      (strToLower k) ≠ "_id" ∧ (strToLower k) ≠ "ct" ∧ (strToLower k) ≠ "mt") :
    ∃ s : Doc,
      fqDelete allow q (some m) tf enc none none
        = .ok (.updatedAll q [("$set", s)])
      ∧ dkeys s = (dkeys m).map strToLower
      ∧ (∀ k v, dlookup k m = some v →
          dlookup (strToLower k) s = some (enc k v))
      ∧ (∀ d : Doc,
          dlookup "_id" (applySet [("$set", s)] d) = dlookup "_id" d
          ∧ dlookup "ct" (applySet [("$set", s)] d) = dlookup "ct" d
          ∧ dlookup "mt" (applySet [("$set", s)] d) = dlookup "mt" d)
      ∧ (∀ ops ret u', toMgoUpdater tf pf isSlice enc now ops ret = some u' →
          ∃ s', d2lookup "$set" u' = some s'
            ∧ dlookup "mt" s' = some (MVal.time now)) := by
  have hs : m.foldl (fun dd kv => dinsert (strToLower kv.1) (enc kv.1 kv.2) dd) []
      = m.map fun kv => (strToLower kv.1, enc kv.1 kv.2) := by
    rw [foldl_dinsert_toLower enc m [] (by intro k _; simp [dkeys]) hnd]
    simp
  have houter : toMgoUpdaterSetOp tf [] false enc m []
      = some [("$set", m.map fun kv => (strToLower kv.1, enc kv.1 kv.2))] := by
    rw [toMgoUpdaterSetOp_nocheck tf enc m [] hf,
      foldl_accMapMap_set_from_nil enc m hne, hs]
  refine ⟨m.map fun kv => (strToLower kv.1, enc kv.1 kv.2), ?_, ?_, ?_, ?_,
    fun ops => toMgoUpdater_mt tf pf isSlice enc now ops⟩
  · simp [fqDelete, hallow, houter]
  · simp [dkeys, List.map_map, Function.comp]
  · intro k v hkv
    exact dlookup_map_toLower enc m k v hnd hkv
  · have hdk : dkeys (m.map fun kv => (strToLower kv.1, enc kv.1 kv.2))
        = (dkeys m).map strToLower := by
      simp [dkeys, List.map_map, Function.comp]
    have happ : ∀ d : Doc,
        applySet [("$set", m.map fun kv => (strToLower kv.1, enc kv.1 kv.2))] d
          = setStructFieldsDoc d (m.map fun kv => (strToLower kv.1, enc kv.1 kv.2)) := by
      intro d
      simp [applySet, d2lookup]
    have hnm : ∀ b : String,
        (∀ k ∈ dkeys m, (strToLower k) ≠ b) →
        b ∉ dkeys (m.map fun kv => (strToLower kv.1, enc kv.1 kv.2)) := by
      intro b hb hmem
      rw [hdk] at hmem
      obtain ⟨k, hk, he⟩ := List.mem_map.mp hmem
      exact hb k hk he
    intro d
    rw [happ d]
    refine ⟨?_, ?_, ?_⟩
    · exact dlookup_setStructFields_not_mem _ _ _
        (hnm "_id" fun k hk => (hbase k hk).1)
    · exact dlookup_setStructFields_not_mem _ _ _
        (hnm "ct" fun k hk => (hbase k hk).2.1)
    · exact dlookup_setStructFields_not_mem _ _ _
        (hnm "mt" fun k hk => (hbase k hk).2.2)

/-- C10 witness: soft delete on `{S1: "Deleted"}` over a shape with field
`S1`, identity encoding, and criterion `{b1: true}`. -/
theorem fqDelete_softDelete_spec_witness :
    ∃ s : Doc,
      fqDelete 4 [("b1", MVal.bool true)] (some [("S1", MVal.str "Deleted")])
          ["S1"] (fun _ v => v) none none
        = .ok (.updatedAll [("b1", MVal.bool true)] [("$set", s)])
      ∧ dkeys s = (dkeys [("S1", MVal.str "Deleted")]).map strToLower
      ∧ (∀ k v, dlookup k [("S1", MVal.str "Deleted")] = some v →
          dlookup (strToLower k) s = some ((fun _ v => v : String → MVal → MVal) k v))
      ∧ (∀ d : Doc,
          dlookup "_id" (applySet [("$set", s)] d) = dlookup "_id" d
          ∧ dlookup "ct" (applySet [("$set", s)] d) = dlookup "ct" d
          ∧ dlookup "mt" (applySet [("$set", s)] d) = dlookup "mt" d)
      ∧ (∀ ops ret u',
          toMgoUpdater ["S1"] [] (fun _ => false) (fun _ v => v) 99 ops ret
            = some u' →
          ∃ s', d2lookup "$set" u' = some s'
            ∧ dlookup "mt" s' = some (MVal.time 99)) :=
  fqDelete_softDelete_spec 4 [("b1", MVal.bool true)] [("S1", MVal.str "Deleted")]
    ["S1"] [] (fun _ => false) (fun _ v => v) 99 (by decide) (by decide)
    (by decide) (by decide) (by decide)

/-! ## Claim C3: pull drain protocol -/

/-- C3: on a pull timeline iterator, when the next-cursor fetch returns no
rows the iterator (a) releases its context's session, (b) waits on the
broadcaster keyed by its criterion extended with `$type = shape name`,
(c) reacquires the session, and (d) retries the same fetch exactly once —
the trace contains exactly two fetches of the same query and is legal for
the context's session discipline — and if the retry also returns nothing
the items are empty. -/
theorem timelineItemsNext_pull_drain (sel : Doc) (typeName : String)
    (sortFields : List String) (limit : Int) (lastId next0 : Option OId)
    (n : Int) (all : Bool) (resp2 : List OId) (hn : 0 < n) :
    ∃ q : TLQuery,
      tlNextQuery sel sortFields limit
          (match next0 with | none => lastId | some x => some x) n all = some q
      ∧ timelineItemsNext true sel typeName sortFields limit lastId next0
            n all [] resp2
          = ([TLEvent.fetch q, TLEvent.closeSession,
              TLEvent.wait (dinsert "$type" (MVal.str typeName) sel),
              TLEvent.reopenSession, TLEvent.fetch q], resp2)
      ∧ runCtx [TLEvent.fetch q, TLEvent.closeSession,
            TLEvent.wait (dinsert "$type" (MVal.str typeName) sel),
            TLEvent.reopenSession, TLEvent.fetch q] = some true
      ∧ (resp2 = [] →
          (timelineItemsNext true sel typeName sortFields limit lastId next0
              n all [] resp2).2 = []) := by
  have hq : ∃ q : TLQuery,
      tlNextQuery sel sortFields limit
        (match next0 with | none => lastId | some x => some x) n all = some q := by
    rw [tlNextQuery, if_neg (by omega)]
    exact ⟨_, rfl⟩
  obtain ⟨q, hq⟩ := hq
  have htr : timelineItemsNext true sel typeName sortFields limit lastId next0
        n all [] resp2
      = ([TLEvent.fetch q, TLEvent.closeSession,
          TLEvent.wait (dinsert "$type" (MVal.str typeName) sel),
          TLEvent.reopenSession, TLEvent.fetch q], resp2) := by
    simp only [timelineItemsNext]
    rw [hq]
    simp
  refine ⟨q, hq, htr, rfl, fun h => ?_⟩
  rw [htr, h]

/-- C3 witness: concrete pull drain with an empty first fetch and a
one-row retry. -/
theorem timelineItemsNext_pull_drain_witness :
    ∃ q : TLQuery,
      tlNextQuery [("b1", MVal.bool true)] ["_id"] 0 none 60 false = some q
      ∧ timelineItemsNext true [("b1", MVal.bool true)] "msg" ["_id"] 0
            none none 60 false [] [5]
          = ([TLEvent.fetch q, TLEvent.closeSession,
              TLEvent.wait (dinsert "$type" (MVal.str "msg")
                [("b1", MVal.bool true)]),
              TLEvent.reopenSession, TLEvent.fetch q], [5])
      ∧ runCtx [TLEvent.fetch q, TLEvent.closeSession,
            TLEvent.wait (dinsert "$type" (MVal.str "msg")
              [("b1", MVal.bool true)]),
            TLEvent.reopenSession, TLEvent.fetch q] = some true
      ∧ ([5] = ([] : List OId) →
          (timelineItemsNext true [("b1", MVal.bool true)] "msg" ["_id"] 0
              none none 60 false [] [5]).2 = []) :=
  timelineItemsNext_pull_drain [("b1", MVal.bool true)] "msg" ["_id"] 0
    none none 60 false [5] (by omega)

end Mogogo
